import Mathlib

/-!
Verification of the biomarker reconciliation engine of the `bloom-cell`
repository (an Express server in `src/index.js` plus two near-identical
server variants in `src/unnamed/part_000`).

The definitions below are a shallow embedding of the JavaScript source:

* JavaScript string-or-nullish values are modelled by `JStr`
  (`undef` for a missing property, `null` for JSON null, `str s` for a
  string), because the reconciler's checks `x !== null` and `x !== ""`
  and the truthiness coalescing `x || null` distinguish all three.
* `parseFloat`, `replace`, `trim`, `toLowerCase`, `match` and the
  concrete regular expressions of the source are modelled character by
  character; numbers are represented by `ℚ` (the inputs at stake are
  short decimal literals, which IEEE doubles represent exactly).
* The Gemini/HTTP plumbing is out of scope (the spec marks it as an
  external collaborator); the functions below receive the values that
  plumbing would hand them.
-/

/-- A JavaScript value that is a string, `null`, or absent (`undefined`).
`JStr.undef` models reading a property that a JSON object does not have. -/
inductive JStr where
  | undef : JStr
  | null : JStr
  | str : String → JStr
deriving DecidableEq, Repr

/-- JavaScript truthiness of a string-or-nullish value: `undefined`, `null`
and the empty string are falsy, every other string is truthy. -/
def truthy : JStr → Bool
  | JStr.str s => decide (s ≠ "")
  | _ => false

/-- JavaScript `a || b` for string-or-nullish values. -/
def jsOr (a b : JStr) : JStr := if truthy a then a else b

/-- JavaScript `a || b || ""` for string-or-nullish values: the result is
always a string, so it is returned as one. -/
def coalesceStr (a b : JStr) : String :=
  match jsOr a b with
  | JStr.str s => s
  | _ => ""

/-- JavaScript `String.prototype.toLowerCase` restricted to the ASCII
letters that occur in the synonym table and dataset headers (defined over
the character list so that it evaluates by kernel reduction). -/
def jsToLowerCase (s : String) : String := ⟨s.data.map Char.toLower⟩

/-- The whitespace class used by `String.prototype.trim` and by leading
whitespace skipping in `parseFloat` (the common ASCII part; the exotic
Unicode space code points never occur in the strings at stake). -/
def jsIsSpace (c : Char) : Bool :=
  c = ' ' || c = '\t' || c = '\n' || c = '\r' || c = '\x0b' || c = '\x0c'

/-- JavaScript `String.prototype.trim` (ASCII whitespace). -/
def jsTrim (s : String) : String :=
  ⟨(s.data.dropWhile jsIsSpace).reverse.dropWhile jsIsSpace |>.reverse⟩

/-- The value of a decimal digit list, most significant first. -/
def digitsToNat (ds : List Char) : Nat :=
  ds.foldl (fun n c => 10 * n + (c.toNat - '0'.toNat)) 0

/-- The numeric value denoted by `sign`, integer digits, fraction digits
and a decimal exponent, as the rational
`sign * (intD.fracD) * 10^exp` (built with integer arithmetic and
`mkRat` so that it evaluates by kernel reduction). -/
def floatOfParts (sign : Int) (intD fracD : List Char) (exp : Int) : ℚ :=
  let base : Int := sign * ((digitsToNat intD * 10 ^ fracD.length + digitsToNat fracD : Nat) : Int)
  if 0 ≤ exp then mkRat (base * ((10 ^ exp.toNat : Nat) : Int)) (10 ^ fracD.length)
  else mkRat base (10 ^ fracD.length * 10 ^ (-exp).toNat)

/-- JavaScript `parseFloat` on a string: skip leading whitespace, optional
sign, decimal digits with optional fraction and exponent, ignore trailing
garbage; `NaN` (here `none`) when no digit is found.  (`Infinity` literals
are not modelled; no input of this system produces them.) -/
def parseFloatStr (s : String) : Option ℚ :=
  let cs := s.data.dropWhile jsIsSpace
  let (sign, cs1) : Int × List Char :=
    match cs with
    | '-' :: r => (-1, r)
    | '+' :: r => (1, r)
    | _ => (1, cs)
  let (intD, cs2) := cs1.span Char.isDigit
  let (fracD, cs3) : List Char × List Char :=
    match cs2 with
    | '.' :: r => r.span Char.isDigit
    | _ => ([], cs2)
  if intD = [] ∧ fracD = [] then none
  else
    let exp : Int :=
      match cs3 with
      | 'e' :: r =>
        let (es, r1) : Int × List Char :=
          match r with
          | '-' :: rr => (-1, rr)
          | '+' :: rr => (1, rr)
          | _ => (1, r)
        let (expD, _) := r1.span Char.isDigit
        if expD = [] then 0 else es * (digitsToNat expD : Int)
      | 'E' :: r =>
        let (es, r1) : Int × List Char :=
          match r with
          | '-' :: rr => (-1, rr)
          | '+' :: rr => (1, rr)
          | _ => (1, r)
        let (expD, _) := r1.span Char.isDigit
        if expD = [] then 0 else es * (digitsToNat expD : Int)
      | _ => 0
    some (floatOfParts sign intD fracD exp)

/-- JavaScript `parseFloat` applied to a string-or-nullish value:
`parseFloat(null)` and `parseFloat(undefined)` are `NaN` (the coerced
strings `"null"`/`"undefined"` have no numeric prefix). -/
def jsParseFloat : JStr → Option ℚ
  | JStr.str s => parseFloatStr s
  | _ => none

/-- A match candidate as consumed by the `/analyzeWithDataset` reconciler in
`src/index.js` — exactly the per-item fields of `ANALYSIS_RESPONSE_SCHEMA`
(lines 256–295).  All fields are nullable strings in the schema; a field a
response object omits reads as `undef`. -/
structure Entry where
  name : JStr
  value : JStr
  unit : JStr
  matched_marker : JStr
  gender_used : JStr
  min : JStr
  max : JStr
  severity : JStr
deriving DecidableEq, Repr

/-- The validity gate of the reconciler, `src/index.js` lines 399–402:
`entry.matched_marker !== null && entry.matched_marker !== "" &&
(entry.min !== null || entry.max !== null || entry.severity !== null)`. -/
def isValidMatch (e : Entry) : Bool :=
  decide (e.matched_marker ≠ JStr.null) && decide (e.matched_marker ≠ JStr.str "") &&
    (decide (e.min ≠ JStr.null) || decide (e.max ≠ JStr.null) ||
      decide (e.severity ≠ JStr.null))

/-- The dead local computation of `isWithinRange` inside the valid branch,
`src/index.js` lines 405–425: the variable is computed here but never
attached to the record that is pushed (line 427 pushes `{...entry}`). -/
def computeIsWithinRange (e : Entry) : Option Bool :=
  let patientValue := jsParseFloat e.value
  let minRange := jsParseFloat e.min
  let maxRange := jsParseFloat e.max
  match patientValue with
  | none => none
  | some v =>
    match minRange, maxRange with
    | some lo, some hi => some (decide (lo ≤ v) && decide (v ≤ hi))
    | some lo, none => some (decide (lo ≤ v))
    | none, some hi => some (decide (v ≤ hi))
    | none, none => some true

/-- JavaScript `v || null` for a string-or-nullish value (used when the
reconciler nulls the fields of an unmatched record). -/
def orNull (v : JStr) : JStr := if truthy v then v else JStr.null

/-- The unmatched record built at `src/index.js` lines 432–441: `name`,
`value`, `unit` are coalesced with `|| null`, every match-derived field is
forced to `null`. -/
def nullifyEntry (e : Entry) : Entry :=
  { name := orNull e.name
  , value := orNull e.value
  , unit := orNull e.unit
  , matched_marker := JStr.null
  , gender_used := JStr.null
  , min := JStr.null
  , max := JStr.null
  , severity := JStr.null }

/-- The two output sequences of the reconciler. -/
structure Reconciled where
  evaluated : List Entry
  unmatched : List Entry
deriving DecidableEq, Repr

/-- One iteration of the `allEntries.forEach` loop, `src/index.js`
lines 397–443: a gate-passing entry is pushed (spread-copied, unchanged)
onto `evaluated`, every other entry is pushed nullified onto `unmatched`. -/
def reconcileStep (acc : Reconciled) (entry : Entry) : Reconciled :=
  if isValidMatch entry then
    { evaluated := acc.evaluated ++ [entry], unmatched := acc.unmatched }
  else
    { evaluated := acc.evaluated, unmatched := acc.unmatched ++ [nullifyEntry entry] }

/-- The reconciler of `src/index.js` lines 386–443: the proposer's
`evaluated` and `unmatched` lists are pooled (`allEntries`, lines 392–395;
a non-array input reads as `[]`, which the list type already captures) and
re-partitioned entry by entry. -/
def reconcile (modelEvaluated modelUnmatched : List Entry) : Reconciled :=
  (modelEvaluated ++ modelUnmatched).foldl reconcileStep ⟨[], []⟩

/-- Removes every comparison-operator glyph, the
`value.replace(/[<>≤≥]/g, "")` of `postProcessBiomarkers`
(`src/unnamed/part_000` line 453). -/
def stripCompareOps (s : String) : String :=
  ⟨s.data.filter (fun c => !(c = '<' || c = '>' || c = '≤' || c = '≥'))⟩

/-- The leading `^(\d+\.?\d*)` numeral of a character list, as parsed by
`parseFloat` on the captured group: one or more digits, an optional dot,
then zero or more digits.  `none` when the list does not start with a
digit. -/
def leadingNumeric (cs : List Char) : Option ℚ :=
  let (intD, rest) := cs.span Char.isDigit
  if intD = [] then none
  else
    match rest with
    | '.' :: rest2 =>
      let (fracD, _) := rest2.span Char.isDigit
      some (floatOfParts 1 intD fracD 0)
    | _ => some (floatOfParts 1 intD [] 0)

/-- The numeric-value parsing of `postProcessBiomarkers`,
`src/unnamed/part_000` lines 451–458: guarded by the truthiness of
`biomarker.value`, strip `[<>≤≥]`, trim, match `^(\d+\.?\d*)`, and parse
the captured group with `parseFloat`. -/
def parseNumeric (s : String) : Option ℚ :=
  if s ≠ "" then leadingNumeric ((jsTrim (stripCompareOps s)).data)
  else none

/-- The static synonym table of `standardizeBiomarkerName`,
`src/unnamed/part_000` lines 265–329, in source order. -/
def standardizations : List (String × String) :=
  [ ("wbc", "White Blood Cell Count")
  , ("white blood cells", "White Blood Cell Count")
  , ("leukocytes", "White Blood Cell Count")
  , ("rbc", "Red Blood Cell Count")
  , ("red blood cells", "Red Blood Cell Count")
  , ("hgb", "Hemoglobin")
  , ("hb", "Hemoglobin")
  , ("hct", "Hematocrit")
  , ("plt", "Platelet Count")
  , ("platelets", "Platelet Count")
  , ("mcv", "Mean Corpuscular Volume")
  , ("mch", "Mean Corpuscular Hemoglobin")
  , ("mchc", "Mean Corpuscular Hemoglobin Concentration")
  , ("rdw", "Red Cell Distribution Width")
  , ("glu", "Glucose")
  , ("glucose", "Glucose")
  , ("blood sugar", "Glucose")
  , ("bun", "Blood Urea Nitrogen")
  , ("cr", "Creatinine")
  , ("creat", "Creatinine")
  , ("na", "Sodium")
  , ("k", "Potassium")
  , ("cl", "Chloride")
  , ("co2", "Carbon Dioxide")
  , ("chol", "Total Cholesterol")
  , ("cholesterol", "Total Cholesterol")
  , ("hdl", "HDL Cholesterol")
  , ("ldl", "LDL Cholesterol")
  , ("trig", "Triglycerides")
  , ("triglycerides", "Triglycerides")
  , ("alt", "Alanine Aminotransferase")
  , ("sgpt", "Alanine Aminotransferase")
  , ("ast", "Aspartate Aminotransferase")
  , ("sgot", "Aspartate Aminotransferase")
  , ("alkp", "Alkaline Phosphatase")
  , ("alp", "Alkaline Phosphatase")
  , ("tbili", "Total Bilirubin")
  , ("bilirubin", "Total Bilirubin")
  , ("tsh", "Thyroid Stimulating Hormone")
  , ("t4", "Thyroxine")
  , ("t3", "Triiodothyronine")
  , ("ck", "Creatine Kinase")
  , ("cpk", "Creatine Kinase")
  , ("ck-mb", "Creatine Kinase-MB")
  , ("troponin i", "Troponin I")
  , ("troponin t", "Troponin T")
  , ("crp", "C-Reactive Protein")
  , ("esr", "Erythrocyte Sedimentation Rate")
  , ("hba1c", "Hemoglobin A1c")
  , ("a1c", "Hemoglobin A1c") ]

/-- A value the object-literal lookup of the synonym table can produce:
an own-property canonical string, or — because a plain object literal
inherits from `Object.prototype` — the inherited member named by the key
(a built-in function, or `Object.prototype` itself for `__proto__`; in
either case a truthy non-string value). -/
inductive StdResult where
  | strVal : String → StdResult
  | protoVal : String → StdResult
deriving DecidableEq, Repr

/-- The own property names of `Object.prototype`, all reachable through a
string key on any object literal, and all with truthy values. -/
def objectPrototypeProps : List String :=
  [ "constructor", "__defineGetter__", "__defineSetter__", "hasOwnProperty"
  , "__lookupGetter__", "__lookupSetter__", "isPrototypeOf"
  , "propertyIsEnumerable", "toString", "valueOf", "__proto__"
  , "toLocaleString" ]

/-- The string carried by a lookup result (for an inherited member this
is just its name; the case only matters for stating idempotence, which
never reaches it on the synonym keys). -/
def stdResultStr : StdResult → String
  | StdResult.strVal s => s
  | StdResult.protoVal p => p

/-- Embeds `standardizeBiomarkerName`, `src/unnamed/part_000` lines 264–333:
`standardizations[name.toLowerCase().trim()] || name`.  The bracket lookup
on the object literal walks the prototype chain: a key that misses every
own property but names an `Object.prototype` member yields that inherited
truthy value, which the `||` then returns instead of the original name. -/
def standardizeBiomarkerName (name : String) : StdResult :=
  match standardizations.lookup (jsTrim (jsToLowerCase name)) with
  | some canonical => StdResult.strVal canonical
  | none =>
    if objectPrototypeProps.contains (jsTrim (jsToLowerCase name)) then
      StdResult.protoVal (jsTrim (jsToLowerCase name))
    else StdResult.strVal name

/-- A character class of a unit regular expression: the characters one
position may take (the source patterns have fixed length, e.g.
`/mg\/d[Ll]/`). -/
def CharClass := List Char

/-- A fixed-length regular expression as a sequence of character classes. -/
def UPattern := List CharClass

/-- Does `cs` begin with a match of the fixed-length pattern `p`? -/
def matchHere : UPattern → List Char → Bool
  | [], _ => true
  | _ :: _, [] => false
  | cl :: ps, c :: cs => List.contains cl c && matchHere ps cs

/-- Computes `referenceRange.match(pattern)[0]`: the leftmost match of the
fixed-length pattern, as the matched substring of the input. -/
def firstPatternMatch (p : UPattern) : List Char → Option String
  | [] => if matchHere p [] then some ⟨[]⟩ else none
  | c :: cs =>
    if matchHere p (c :: cs) then some ⟨(c :: cs).take p.length⟩
    else firstPatternMatch p cs

/-- The ordered `unitPatterns` list of `extractUnitFromReferenceRange`,
`src/unnamed/part_000` lines 344–374, with each source regular expression
spelled as its sequence of character classes (`[Ll]` is the class
`['L','l']`; the `/i` patterns carry both cases at every position). -/
def unitPatterns : List UPattern :=
  [ [['m'], ['g'], ['/'], ['d'], ['L', 'l']]
  , [['g'], ['/'], ['d'], ['L', 'l']]
  , [['μ'], ['g'], ['/'], ['L', 'l']]
  , [['m'], ['c'], ['g'], ['/'], ['L', 'l']]
  , [['n'], ['g'], ['/'], ['m'], ['L', 'l']]
  , [['p'], ['g'], ['/'], ['m'], ['L', 'l']]
  , [['I'], ['U'], ['/'], ['L', 'l']]
  , [['m'], ['I'], ['U'], ['/'], ['L', 'l']]
  , [['U'], ['/'], ['L', 'l']]
  , [['m'], ['m'], ['o'], ['l'], ['/'], ['L', 'l']]
  , [['μ'], ['m'], ['o'], ['l'], ['/'], ['L', 'l']]
  , [['n'], ['m'], ['o'], ['l'], ['/'], ['L', 'l']]
  , [['x'], ['1'], ['0'], ['³', '3'], ['/'], ['μ'], ['L', 'l']]
  , [['K'], ['/'], ['μ'], ['L', 'l']]
  , [['1'], ['0'], ['³', '3'], ['/'], ['μ'], ['L', 'l']]
  , [['c'], ['e'], ['l'], ['l'], ['s'], ['/'], ['μ'], ['L', 'l']]
  , [['/'], ['μ'], ['L', 'l']]
  , [['m'], ['g'], ['/'], ['2'], ['4'], ['h']]
  , [['g'], ['/'], ['2'], ['4'], ['h']]
  , [['m'], ['m'], ['H'], ['g']]
  , [['b'], ['p'], ['m']]
  , [['°'], ['C', 'F']]
  , [['%']]
  , [['r', 'R'], ['a', 'A'], ['t', 'T'], ['i', 'I'], ['o', 'O']]
  , [['i', 'I'], ['n', 'N'], ['d', 'D'], ['e', 'E'], ['x', 'X']]
  , [['s'], ['e'], ['c']]
  , [['m'], ['i'], ['n']]
  , [['f', 'F'], ['l', 'L']]
  , [['p', 'P'], ['g', 'G']] ]

/-- The pattern loop of `extractUnitFromReferenceRange`, lines 377–382:
the first pattern in list order that matches anywhere wins, and its first
(leftmost) match is returned. -/
def firstUnitPatternHit : List UPattern → List Char → Option String
  | [], _ => none
  | p :: ps, cs =>
    match firstPatternMatch p cs with
    | some u => some u
    | none => firstUnitPatternHit ps cs

/-- An ASCII letter, the `[a-zA-Z]` class of the fallback pattern. -/
def isAsciiLetter (c : Char) : Bool :=
  ('a' ≤ c && c ≤ 'z') || ('A' ≤ c && c ≤ 'Z')

/-- A JavaScript word character (`\w`, the class `\b` is defined by):
`[A-Za-z0-9_]`. -/
def isWordChar (c : Char) : Bool :=
  isAsciiLetter c || c.isDigit || c = '_'

/-- Tests `\b` before a word character at the current position: start of input
or a non-word character just before. -/
def boundaryBefore : Option Char → Bool
  | none => true
  | some p => !isWordChar p

/-- Tests `\b` after the just-matched word characters: end of input or a
non-word character next. -/
def trailingBoundary : List Char → Bool
  | [] => true
  | c :: _ => !isWordChar c

/-- First alternative of the fallback pattern,
`\b[a-zA-Z]+\/[a-zA-Z]+\b`, attempted at the current position (`prev` is
the character before that position).  The `+` repetitions are greedy; a
shorter repetition can never satisfy the following literal `/` or `\b`
because the next character would still be a letter, so only the maximal
letter runs are tried. -/
def tryAlt1 (prev : Option Char) (cs : List Char) : Option (List Char × List Char) :=
  match cs with
  | [] => none
  | c :: _ =>
    if isAsciiLetter c && boundaryBefore prev then
      let (r1, rest1) := cs.span isAsciiLetter
      match rest1 with
      | '/' :: rest2 =>
        let (r2, rest3) := rest2.span isAsciiLetter
        if decide (r2 ≠ []) && trailingBoundary rest3 then
          some (r1 ++ '/' :: r2, rest3)
        else none
      | _ => none
    else none

/-- Second alternative, `\b[μ]?[a-zA-Z]+\/[a-zA-Z]+\b`.  With the `μ`
absent it is identical to the first alternative (which was already tried),
so only the `μ`-present case can add a match; `μ` is not a word character,
so `\b` before it demands a word character just before. -/
def tryAlt2 (prev : Option Char) (cs : List Char) : Option (List Char × List Char) :=
  match cs with
  | 'μ' :: cs2 =>
    if (match prev with | some p => isWordChar p | none => false) then
      let (r1, rest1) := cs2.span isAsciiLetter
      if decide (r1 ≠ []) then
        match rest1 with
        | '/' :: rest2 =>
          let (r2, rest3) := rest2.span isAsciiLetter
          if decide (r2 ≠ []) && trailingBoundary rest3 then
            some ('μ' :: r1 ++ '/' :: r2, rest3)
          else none
        | _ => none
      else none
    else none
  | _ => none

/-- Third alternative, `\b[a-zA-Z]{1,5}\b(?=\s|$)`: the greedy bounded
repetition can only close with `\b` when it takes the whole letter run, so
the run must have length at most 5, and the lookahead demands whitespace
or end of input next. -/
def tryAlt3 (prev : Option Char) (cs : List Char) : Option (List Char × List Char) :=
  match cs with
  | [] => none
  | c :: _ =>
    if isAsciiLetter c && boundaryBefore prev then
      let (r, rest) := cs.span isAsciiLetter
      if decide (r.length ≤ 5) && (match rest with | [] => true | d :: _ => jsIsSpace d) then
        some (r, rest)
      else none
    else none

/-- The global scan of the fallback pattern
`/\b[a-zA-Z]+\/[a-zA-Z]+\b|\b[μ]?[a-zA-Z]+\/[a-zA-Z]+\b|\b[a-zA-Z]{1,5}\b(?=\s|$)/g`
(line 386): at each position the alternatives are tried in order; on a
match the scan resumes after it, otherwise one character ahead.  Every
match consumes at least one character, so `cs.length + 1` fuel suffices. -/
def fallbackScan : Nat → Option Char → List Char → List String
  | 0, _, _ => []
  | fuel + 1, prev, cs =>
    match cs with
    | [] => []
    | c :: rest =>
      match tryAlt1 prev cs <|> tryAlt2 prev cs <|> tryAlt3 prev cs with
      | some (m, rest2) => (⟨m⟩ : String) :: fallbackScan fuel m.getLast? rest2
      | none => fallbackScan fuel (some c) rest

/-- Computes `referenceRange.match(fallbackPattern)` (lines 385–387). -/
def fallbackTokens (cs : List Char) : List String :=
  fallbackScan (cs.length + 1) none cs

/-- The `nonUnits` stoplist of line 390–411, in source order. -/
def nonUnits : List String :=
  [ "normal", "abnormal", "high", "low", "range", "reference", "adult"
  , "male", "female", "years", "old", "seen", "none", "few", "many"
  , "rare", "moderate", "negative", "positive" ]

/-- Embeds `extractUnitFromReferenceRange`, `src/unnamed/part_000` lines 338–425:
`null` for a nullish input; otherwise the first ordered unit pattern that
matches anywhere wins with its leftmost match; otherwise the fallback
tokens are filtered by the stoplist, a maximum length of 8 and the
presence of a letter, and the first survivor (if any) is returned. -/
def extractUnitFromReferenceRange (referenceRange : Option String) : Option String :=
  match referenceRange with
  | none => none
  | some s =>
    match firstUnitPatternHit unitPatterns s.data with
    | some u => some u
    | none =>
      let filtered := (fallbackTokens s.data).filter fun m =>
        !(nonUnits.contains (jsToLowerCase m)) && decide (m.length ≤ 8) &&
          m.data.any isAsciiLetter
      filtered.head?

/-- A raw spreadsheet row as produced by `xlsx.utils.sheet_to_json` with
`defval: null, raw: false`: every cell is a string or `null`, and a column
a sheet lacks reads as `undef`.  For each field the loader tries the
canonical header (`…C`) and then the lower-cased header (`…L`). -/
structure RawRow where
  markerC : JStr
  markerL : JStr
  genderC : JStr
  genderL : JStr
  minC : JStr
  minL : JStr
  maxC : JStr
  maxL : JStr
  severityC : JStr
  severityL : JStr
deriving DecidableEq, Repr

/-- One loaded reference-dataset row, the shape produced by the `.map` of
`loadDatasetWithPrecision`. -/
structure CleanRow where
  marker : String
  gender : String
  min : String
  max : String
  severity : String
deriving DecidableEq, Repr

/-- The row filter of `loadDatasetWithPrecision`,
`src/unnamed/part_000` lines 483–486 (second variant lines 1336–1339):
`marker && marker.trim().length > 0` with
`marker = row["Blood Test Marker"] || row["blood test marker"]`. -/
def keepRow (r : RawRow) : Bool :=
  match jsOr r.markerC r.markerL with
  | JStr.str s => decide (s ≠ "") && decide (0 < (jsTrim s).length)
  | _ => false

/-- The row normalization of `loadDatasetWithPrecision`, lines 487–500:
marker trimmed, gender lower-cased and trimmed, `min`/`max`/`severity`
kept as raw strings (empty string for a missing cell). -/
def cleanRow (r : RawRow) : CleanRow :=
  { marker := jsTrim (coalesceStr r.markerC r.markerL)
  , gender := jsTrim (jsToLowerCase (coalesceStr r.genderC r.genderL))
  , min := coalesceStr r.minC r.minL
  , max := coalesceStr r.maxC r.maxL
  , severity := coalesceStr r.severityC r.severityL }

/-- The in-memory dataset built by `loadDatasetWithPrecision`,
`src/unnamed/part_000` lines 467–504, from the rows of the first sheet
(the `fs.existsSync` guard and `xlsx.readFile` are the I/O shell around
this row processing and are modelled with `analysisErrorType` below). -/
def loadDatasetWithPrecision (rows : List RawRow) : List CleanRow :=
  (rows.filter keepRow).map cleanRow

/-- Computes `marker.replace(/"/g, quotequote)`: double every quote character. -/
def escapeQData : List Char → List Char
  | [] => []
  | c :: cs => if c = '"' then '"' :: '"' :: escapeQData cs else c :: escapeQData cs

/-- A quoted CSV field whose content had its quotes doubled (applied to
the `marker` field only, `src/unnamed/part_000` line 1361). -/
def quoteEsc (s : String) : List Char :=
  '"' :: escapeQData s.data ++ ['"']

/-- A quoted CSV field emitted without any escaping (applied to `gender`,
`min`, `max`, `severity`, lines 1362–1365). -/
def quoteRaw (s : String) : List Char :=
  '"' :: s.data ++ ['"']

/-- One data line of `generatePrecisionCSV` (lines 1359–1367): the five
quoted fields joined with commas. -/
def rowLineData (r : CleanRow) : List Char :=
  quoteEsc r.marker ++ ',' :: quoteRaw r.gender ++ ',' :: quoteRaw r.min ++
    ',' :: quoteRaw r.max ++ ',' :: quoteRaw r.severity

/-- Computes `csvLines.join` over newline. -/
def joinLines : List String → String
  | [] => ""
  | [l] => l
  | l :: ls => l ++ "\n" ++ joinLines ls

/-- Embeds `generatePrecisionCSV`, `src/unnamed/part_000` lines 1355–1371 (the
five-column variant the analysis route uses): the fixed unquoted header
line, then one quoted line per row in input order. -/
def generatePrecisionCSV (datasetRows : List CleanRow) : String :=
  joinLines ("Marker,Gender,Min,Max,Severity" :: datasetRows.map fun r => ⟨rowLineData r⟩)

/-- Modelled from the spec: the round-trip side of the serialization
contract ("re-parseable back into a tabular structure with identical row
count and field values").  `csvParse` is a standard CSV reader: a field is
either quoted (content up to an undoubled quote, `""` reading back as one
quote) or unquoted (content up to a comma or newline); fields are
separated by commas, records by newlines. -/
def parseQuotedTail (acc : List Char) : List Char → Option (String × List Char)
  | [] => none
  | c :: rest =>
    if c = '"' then
      match rest with
      | c2 :: rest2 =>
        if c2 = '"' then parseQuotedTail ('"' :: acc) rest2
        else some (⟨acc.reverse⟩, rest)
      | [] => some (⟨acc.reverse⟩, [])
    else parseQuotedTail (c :: acc) rest

/-- Is `c` an ordinary character of an unquoted field? -/
def notFieldEnd (c : Char) : Bool := !(c = ',' || c = '\n')

/-- One CSV field: quoted if it starts with a quote, unquoted otherwise. -/
def parseField (cs : List Char) : Option (String × List Char) :=
  match cs with
  | [] => some ("", [])
  | c :: rest =>
    if c = '"' then parseQuotedTail [] rest
    else some (⟨cs.takeWhile notFieldEnd⟩, cs.dropWhile notFieldEnd)

/-- The comma-separated fields of one CSV record; each field consumes at
least the separator after it, so fuel bounds the field count. -/
def parseFieldsAux : Nat → List Char → Option (List String × List Char)
  | 0, _ => none
  | fuel + 1, cs =>
    match parseField cs with
    | none => none
    | some (s, rest) =>
      match rest with
      | [] => some ([s], [])
      | c :: rest2 =>
        if c = ',' then
          match parseFieldsAux fuel rest2 with
          | some (fs, rest3) => some (s :: fs, rest3)
          | none => none
        else some ([s], c :: rest2)

/-- The newline-separated records of a CSV text. -/
def parseRowsAux : Nat → List Char → Option (List (List String))
  | 0, _ => none
  | fuel + 1, cs =>
    match parseFieldsAux (cs.length + 1) cs with
    | none => none
    | some (rec, []) => some [rec]
    | some (rec, c :: rest) =>
      if c = '\n' then
        match parseRowsAux fuel rest with
        | some rs => some (rec :: rs)
        | none => none
      else none

/-- Parse a CSV text into its records of field values. -/
def csvParse (s : String) : Option (List (List String)) :=
  parseRowsAux (s.data.length + 1) s.data

/-- Has the string no double-quote character? -/
def noQuoteStr (s : String) : Bool := s.data.all fun c => !(c = '"')

/-- A caught JavaScript error as the `/analyzeWithDataset` handler sees
it: its `message`, and its `code` property (`none` for a plain
`new Error(...)`, which leaves `code` undefined). -/
structure JsError where
  message : String
  code : Option String
deriving DecidableEq, Repr

/-- Does `needle` start `hay`? -/
def startsWithList : List Char → List Char → Bool
  | _, [] => true
  | [], _ :: _ => false
  | a :: as, b :: bs => a = b && startsWithList as bs

/-- Computes `String.prototype.includes` as a character-list scan. -/
def containsList : List Char → List Char → Bool
  | [], nd => nd.isEmpty
  | a :: t, nd => startsWithList (a :: t) nd || containsList t nd

/-- Computes `err.message.includes(sub)`. -/
def jsIncludes (s sub : String) : Bool := containsList s.data sub.data

/-- The error thrown by `loadDatasetWithPrecision` when
`fs.existsSync(xlsxPath)` is false (`src/unnamed/part_000` lines 468–470):
a plain `new Error`, whose `code` property is therefore undefined. -/
def datasetNotFoundError (xlsxPath : String) : JsError :=
  { message := "Dataset file not found: " ++ xlsxPath, code := none }

/-- The `error_type` classification of the `/analyzeWithDataset` catch
handler, `src/unnamed/part_000` lines 731–755: incomplete-JSON by message
substring, then `err.code === 'ENOENT'` for `missing_dataset`, then the
generic `analysis_error`. -/
def analysisErrorType (err : JsError) : String :=
  if jsIncludes err.message "Unexpected end of JSON" then "incomplete_json_response"
  else if err.code = some "ENOENT" then "missing_dataset"
  else "analysis_error"

/-- The evaluated example candidate of the spec (§8): `{name:"Glucose",
value:"105", matched_marker:"Glucose", min:"70", max:"99", severity:"2"}`
(the fields the literal does not mention are absent). -/
def glucoseCandidate : Entry :=
  { name := JStr.str "Glucose"
  , value := JStr.str "105"
  , unit := JStr.undef
  , matched_marker := JStr.str "Glucose"
  , gender_used := JStr.undef
  , min := JStr.str "70"
  , max := JStr.str "99"
  , severity := JStr.str "2" }

/-- A gate-failing candidate whose `value` is the empty string — present
and non-null, yet coerced to `null` by `entry.value || null`. -/
def emptyValueCandidate : Entry :=
  { name := JStr.str "Exotic Marker"
  , value := JStr.str ""
  , unit := JStr.null
  , matched_marker := JStr.null
  , gender_used := JStr.null
  , min := JStr.null
  , max := JStr.null
  , severity := JStr.null }

/-- The unmatched example candidate of the spec (§8): `{name:"Exotic
Marker", value:"3", matched_marker:null, min:null, max:null,
severity:null}`. -/
def exoticCandidate : Entry :=
  { name := JStr.str "Exotic Marker"
  , value := JStr.str "3"
  , unit := JStr.undef
  , matched_marker := JStr.null
  , gender_used := JStr.undef
  , min := JStr.null
  , max := JStr.null
  , severity := JStr.null }

/-- A source row whose `Minimum` cell contains a double quote. -/
def quotedMinRow : RawRow :=
  { markerC := JStr.str "M"
  , markerL := JStr.undef
  , genderC := JStr.null
  , genderL := JStr.undef
  , minC := JStr.str "a\"b"
  , minL := JStr.undef
  , maxC := JStr.null
  , maxL := JStr.undef
  , severityC := JStr.null
  , severityL := JStr.undef }

/-- A loaded dataset row whose marker contains a double quote (legal: the
serializer escapes the marker field). -/
def quotedMarkerDataset : List CleanRow :=
  [ { marker := "Glu\"cose", gender := "both", min := "70", max := "99", severity := "2" } ]

/-- Characterization of the reconciler fold: starting from any
accumulator, the gate-passers are appended to `evaluated` unchanged and
in order, the gate-failers are appended to `unmatched` nullified and in
order. -/
theorem foldl_reconcileStep (l : List Entry) (acc : Reconciled) :
    (l.foldl reconcileStep acc).evaluated
        = acc.evaluated ++ l.filter (fun e => isValidMatch e)
    ∧ (l.foldl reconcileStep acc).unmatched
        = acc.unmatched ++ (l.filter (fun e => !isValidMatch e)).map nullifyEntry := by
  induction l generalizing acc with
  | nil => simp
  | cons hd tl ih =>
    obtain ⟨h1, h2⟩ := ih (reconcileStep acc hd)
    simp only [List.foldl_cons]
    rw [h1, h2]
    cases h : isValidMatch hd <;> simp [reconcileStep, h]

/-- The evaluated partition is exactly the gate-passers of the pooled
input, and the unmatched partition exactly the nullified gate-failers. -/
theorem reconcile_eq_filter (modelEvaluated modelUnmatched : List Entry) :
    (reconcile modelEvaluated modelUnmatched).evaluated
        = (modelEvaluated ++ modelUnmatched).filter (fun e => isValidMatch e)
    ∧ (reconcile modelEvaluated modelUnmatched).unmatched
        = ((modelEvaluated ++ modelUnmatched).filter (fun e => !isValidMatch e)).map
            nullifyEntry := by
  have h := foldl_reconcileStep (modelEvaluated ++ modelUnmatched) ⟨[], []⟩
  simpa [reconcile] using h

/-- Splitting a list by a boolean predicate preserves its length. -/
theorem length_filter_partition {α : Type} (p : α → Bool) (l : List α) :
    (l.filter p).length + (l.filter (fun a => !p a)).length = l.length := by
  induction l with
  | nil => rfl
  | cons hd tl ih => cases h : p hd <;> simp [List.filter_cons, h] <;> omega

/-- Coalescing with `|| null` keeps a non-empty string. -/
theorem orNull_str {s : String} (h : s ≠ "") : orNull (JStr.str s) = JStr.str s := by
  simp [orNull, truthy, h]

/-- Coalescing with `|| null` sends every falsy value to `null`. -/
theorem orNull_falsy :
    orNull JStr.undef = JStr.null ∧ orNull JStr.null = JStr.null ∧
      orNull (JStr.str "") = JStr.null := by
  refine ⟨rfl, rfl, ?_⟩
  simp [orNull, truthy]

/-- Claim C1: the reconciler places a pooled candidate in the evaluated
partition iff its `matched_marker` is non-null and non-empty and at least
one of `min`, `max`, `severity` is non-null; every candidate failing this
gate lands in the unmatched partition, regardless of which proposer list
it came from. -/
theorem C1_validity_gate :
    ∀ modelEvaluated modelUnmatched : List Entry,
      ((reconcile modelEvaluated modelUnmatched).evaluated
          = (modelEvaluated ++ modelUnmatched).filter (fun e => isValidMatch e))
      ∧ ((reconcile modelEvaluated modelUnmatched).unmatched
          = ((modelEvaluated ++ modelUnmatched).filter (fun e => !isValidMatch e)).map
              nullifyEntry)
      ∧ ∀ e : Entry, isValidMatch e = true ↔
          (e.matched_marker ≠ JStr.null ∧ e.matched_marker ≠ JStr.str "" ∧
            (e.min ≠ JStr.null ∨ e.max ≠ JStr.null ∨ e.severity ≠ JStr.null)) := by
  intro mev mun
  refine ⟨(reconcile_eq_filter mev mun).1, (reconcile_eq_filter mev mun).2, fun e => ?_⟩
  simp only [isValidMatch, Bool.and_eq_true, Bool.or_eq_true, decide_eq_true_eq]
  tauto

/-- Claim C2 (code bug): the reconciler computes `isWithinRange` (here
`computeIsWithinRange`, which is `false` for the spec's Glucose example)
but pushes the candidate unchanged — `evaluated.push({...entry})` — so
the evaluated output record carries no `isWithinRange` annotation at
all.  The record type, which mirrors the response schema, has no such
field, and the output equals the input candidate verbatim. -/
theorem C2_isWithinRange_dropped :
    (reconcile [glucoseCandidate] []).evaluated = [glucoseCandidate]
    ∧ computeIsWithinRange glucoseCandidate = some false := by
  constructor
  · decide
  · decide

/-- Claim C3 counterexample: a gate-failing candidate whose `value` is the
present, non-null empty string is emitted with `value` forced to `null`
(the JavaScript `entry.value || null` coalesces every falsy value), so the
input value is not preserved as the claim states. -/
theorem C3_empty_string_counterexample :
    (reconcile [] [emptyValueCandidate]).unmatched.map (fun r => r.value) = [JStr.null]
    ∧ emptyValueCandidate.value = JStr.str ""
    ∧ JStr.str "" ≠ JStr.null := by
  decide

/-- Claim C3 (amended): every gate-failing candidate is emitted into the
unmatched partition with `matched_marker`, `gender_used`, `min`, `max`,
`severity` all null; its `name`, `value`, `unit` are preserved when they
are non-empty strings and are defaulted to null when absent, null, or the
empty string. -/
theorem C3_unmatched_nulling :
    ∀ modelEvaluated modelUnmatched : List Entry,
      ((reconcile modelEvaluated modelUnmatched).unmatched
          = ((modelEvaluated ++ modelUnmatched).filter (fun e => !isValidMatch e)).map
              nullifyEntry)
      ∧ ∀ e : Entry,
          (nullifyEntry e).matched_marker = JStr.null
        ∧ (nullifyEntry e).gender_used = JStr.null
        ∧ (nullifyEntry e).min = JStr.null
        ∧ (nullifyEntry e).max = JStr.null
        ∧ (nullifyEntry e).severity = JStr.null
        ∧ (∀ s : String, s ≠ "" →
              (e.name = JStr.str s → (nullifyEntry e).name = JStr.str s)
            ∧ (e.value = JStr.str s → (nullifyEntry e).value = JStr.str s)
            ∧ (e.unit = JStr.str s → (nullifyEntry e).unit = JStr.str s))
        ∧ ((e.name = JStr.undef ∨ e.name = JStr.null ∨ e.name = JStr.str "") →
              (nullifyEntry e).name = JStr.null)
        ∧ ((e.value = JStr.undef ∨ e.value = JStr.null ∨ e.value = JStr.str "") →
              (nullifyEntry e).value = JStr.null)
        ∧ ((e.unit = JStr.undef ∨ e.unit = JStr.null ∨ e.unit = JStr.str "") →
              (nullifyEntry e).unit = JStr.null) := by
  intro mev mun
  refine ⟨(reconcile_eq_filter mev mun).2, fun e => ⟨rfl, rfl, rfl, rfl, rfl, ?_, ?_, ?_, ?_⟩⟩
  · intro s hs
    refine ⟨fun h => ?_, fun h => ?_, fun h => ?_⟩ <;>
      simp [nullifyEntry, h, orNull_str hs]
  · rintro (h | h | h) <;> simp [nullifyEntry, h, orNull_falsy.1, orNull_falsy.2.1, orNull_falsy.2.2]
  · rintro (h | h | h) <;> simp [nullifyEntry, h, orNull_falsy.1, orNull_falsy.2.1, orNull_falsy.2.2]
  · rintro (h | h | h) <;> simp [nullifyEntry, h, orNull_falsy.1, orNull_falsy.2.1, orNull_falsy.2.2]

/-- Witness for C3: the amended theorem applied to the spec's unmatched
example candidate, whose non-empty `value` "3" is preserved while
`matched_marker` is null. -/
theorem C3_unmatched_nulling_witness :
    (nullifyEntry exoticCandidate).matched_marker = JStr.null
    ∧ (nullifyEntry exoticCandidate).value = JStr.str "3" := by
  have h := (C3_unmatched_nulling [] [exoticCandidate]).2 exoticCandidate
  exact ⟨h.1, (h.2.2.2.2.2.1 "3" (by decide)).2.1 rfl⟩

/-- Claim C10: the reconciler is a total partition of the pooled input —
each candidate is placed in exactly one output sequence (the two outputs
are the gate-split of the pool), the output lengths sum to the pooled
length, and each output preserves the relative input order (the evaluated
list is a sublist of the pool; the unmatched list is the order-preserving
filter of the pool, mapped through the nulling). -/
theorem C10_total_partition :
    ∀ modelEvaluated modelUnmatched : List Entry,
      ((reconcile modelEvaluated modelUnmatched).evaluated.length
            + (reconcile modelEvaluated modelUnmatched).unmatched.length
          = (modelEvaluated ++ modelUnmatched).length)
      ∧ List.Sublist (reconcile modelEvaluated modelUnmatched).evaluated
          (modelEvaluated ++ modelUnmatched)
      ∧ ((reconcile modelEvaluated modelUnmatched).evaluated
          = (modelEvaluated ++ modelUnmatched).filter (fun e => isValidMatch e))
      ∧ ((reconcile modelEvaluated modelUnmatched).unmatched
          = ((modelEvaluated ++ modelUnmatched).filter (fun e => !isValidMatch e)).map
              nullifyEntry) := by
  intro mev mun
  obtain ⟨h1, h2⟩ := reconcile_eq_filter mev mun
  refine ⟨?_, ?_, h1, h2⟩
  · rw [h1, h2]
    simpa using length_filter_partition (fun e => isValidMatch e) (mev ++ mun)
  · rw [h1]
    exact List.filter_sublist _

/-- The leading-numeral matcher succeeds exactly when the first character
is a digit. -/
theorem leadingNumeric_isSome (cs : List Char) :
    (leadingNumeric cs).isSome = true ↔ ∃ c, cs.head? = some c ∧ c.isDigit = true := by
  cases cs with
  | nil => simp [leadingNumeric]
  | cons c t =>
    cases h : c.isDigit with
    | false => simp [leadingNumeric, List.span_eq_take_drop, List.takeWhile_cons, h]
    | true =>
      have hs : (leadingNumeric (c :: t)).isSome = true := by
        simp only [leadingNumeric, List.span_eq_take_drop, List.takeWhile_cons, h, cond_true]
        split
        · split
          · simp_all
          · split <;> simp
        · simp_all
      simp [hs, h]

/-- Claim C4: numeric-value parsing strips the comparison glyphs, trims,
matches a leading `digits[.digits]` pattern and returns the parsed float,
succeeding exactly when the cleaned string starts with a digit (and hence
total — qualitative text, the empty string, or a missing leading numeral
give `null`); in particular on the spec's four examples. -/
theorem C4_parseNumeric :
    parseNumeric "<0.5" = some (1 / 2)
    ∧ parseNumeric "NONE SEEN" = none
    ∧ parseNumeric "14.5" = some (29 / 2)
    ∧ parseNumeric ">100" = some 100
    ∧ parseNumeric "" = none
    ∧ ∀ s : String, (parseNumeric s).isSome = true ↔
        ∃ c, (jsTrim (stripCompareOps s)).data.head? = some c ∧ c.isDigit = true := by
  refine ⟨?_, by decide, ?_, ?_, by decide, ?_⟩
  · have h : parseNumeric "<0.5" = some (mkRat 1 2) := by decide
    rw [h, Rat.mkRat_eq_div]; norm_num
  · have h : parseNumeric "14.5" = some (mkRat 29 2) := by decide
    rw [h, Rat.mkRat_eq_div]; norm_num
  · have h : parseNumeric ">100" = some (mkRat 100 1) := by decide
    rw [h, Rat.mkRat_eq_div]; norm_num
  · intro s
    by_cases hs : s = ""
    · subst hs
      constructor
      · intro h
        rw [show parseNumeric "" = none from rfl] at h
        simp at h
      · rintro ⟨c, hc, -⟩
        rw [show (jsTrim (stripCompareOps "")).data = [] from rfl] at hc
        simp at hc
    · rw [show parseNumeric s = leadingNumeric ((jsTrim (stripCompareOps s)).data) from
        if_pos hs]
      exact leadingNumeric_isSome _

/-- Claim C5: unit inference returns null on nullish input; the ordered
unit-pattern list is a priority ranking — in `"ratio 70 - 99 mg/dL"` the
`ratio` pattern occurs first in the string but `mg/dL` is the earlier
pattern in the list and wins; only the first occurrence of the winning
pattern is returned (`"3.5 g/dL to 5.0 g/dL"`); when no pattern matches,
the word-like fallback tokens are filtered through the stoplist
(`"NONE SEEN"` loses both its tokens, `"high units"` loses `high` and
keeps the first survivor `units`) and by the 8-character bound
(`"abcdefg/hijkl"` is a 13-character token and is discarded). -/
theorem C5_inferUnit :
    extractUnitFromReferenceRange none = none
    ∧ extractUnitFromReferenceRange (some "ratio 70 - 99 mg/dL") = some "mg/dL"
    ∧ extractUnitFromReferenceRange (some "3.5 g/dL to 5.0 g/dL") = some "g/dL"
    ∧ extractUnitFromReferenceRange (some "high units") = some "units"
    ∧ extractUnitFromReferenceRange (some "NONE SEEN") = none
    ∧ extractUnitFromReferenceRange (some "abcdefg/hijkl") = none := by
  refine ⟨rfl, by decide, by decide, by decide, by decide, by decide⟩

/-- Claim C6 counterexample: `"constructor"` is not (after lower-casing
and trimming) a key of the synonym table, yet the function does not
return the original string — the object lookup walks the prototype chain
and finds the truthy inherited `Object.prototype.constructor`, which the
`||` returns instead. -/
theorem C6_prototype_counterexample :
    standardizations.lookup (jsTrim (jsToLowerCase "constructor")) = none
    ∧ standardizeBiomarkerName "constructor" ≠ StdResult.strVal "constructor" := by
  constructor
  · decide
  · decide

/-- Claim C6 (amended): standardization is idempotent on every key of the
synonym table — each key maps to a canonical string, and standardizing
that string again gives the same result; and every input string whose
lower-cased, trimmed form is neither a table key nor the name of an
inherited `Object.prototype` member is returned unchanged, in its
original casing.  (An input such as "constructor" or "toString" hits the
prototype chain and comes back as the inherited non-string value.) -/
theorem C6_standardize_idempotent :
    (∀ x ∈ standardizations.map Prod.fst,
        standardizeBiomarkerName (stdResultStr (standardizeBiomarkerName x))
            = standardizeBiomarkerName x
        ∧ standardizeBiomarkerName x
            = StdResult.strVal (stdResultStr (standardizeBiomarkerName x)))
    ∧ ∀ s : String,
        standardizations.lookup (jsTrim (jsToLowerCase s)) = none →
        objectPrototypeProps.contains (jsTrim (jsToLowerCase s)) = false →
          standardizeBiomarkerName s = StdResult.strVal s := by
  constructor
  · decide
  · intro s h1 h2
    have h2m : jsTrim (jsToLowerCase s) ∉ objectPrototypeProps := by
      simpa using h2
    simp [standardizeBiomarkerName, h1, h2m]

/-- Witness for C6: the miss path of the amended theorem applied to a
string that is neither a synonym key nor a prototype member, returned
unchanged with its casing. -/
theorem C6_standardize_idempotent_witness :
    standardizeBiomarkerName "Vitamin D" = StdResult.strVal "Vitamin D" :=
  C6_standardize_idempotent.2 "Vitamin D" (by decide) (by decide)

/-- Claim C7: a source row survives the dataset load exactly when its
(coalesced) marker field is non-empty after trimming, and the surviving
rows carry the marker trimmed, the gender lower-cased and trimmed, and
`min`, `max`, `severity` as the raw cell strings. -/
theorem C7_dataset_load_filter :
    ∀ rows : List RawRow,
      (loadDatasetWithPrecision rows
          = (rows.filter fun r =>
              decide (jsTrim (coalesceStr r.markerC r.markerL) ≠ "")).map cleanRow)
      ∧ (∀ r : RawRow, keepRow r = true ↔ jsTrim (coalesceStr r.markerC r.markerL) ≠ "")
      ∧ ∀ r : RawRow,
          (cleanRow r).marker = jsTrim (coalesceStr r.markerC r.markerL)
        ∧ (cleanRow r).gender = jsTrim (jsToLowerCase (coalesceStr r.genderC r.genderL))
        ∧ (cleanRow r).min = coalesceStr r.minC r.minL
        ∧ (cleanRow r).max = coalesceStr r.maxC r.maxL
        ∧ (cleanRow r).severity = coalesceStr r.severityC r.severityL := by
  have hkeep : ∀ r : RawRow,
      keepRow r = decide (jsTrim (coalesceStr r.markerC r.markerL) ≠ "") := by
    intro r
    rcases hm : jsOr r.markerC r.markerL with _ | _ | s
    · simp [keepRow, coalesceStr, hm, jsTrim]
    · simp [keepRow, coalesceStr, hm, jsTrim]
    · by_cases hs : s = ""
      · subst hs
        simp [keepRow, coalesceStr, hm, jsTrim]
      · have hlen : (0 < (jsTrim s).length) = (jsTrim s ≠ "") := by
          cases hjs : jsTrim s with
          | mk l => cases l <;> simp [String.length, String.ext_iff]
        simp [keepRow, coalesceStr, hm, hs, hlen]
  intro rows
  refine ⟨?_, ?_, fun r => ⟨rfl, rfl, rfl, rfl, rfl⟩⟩
  · unfold loadDatasetWithPrecision
    congr 1
    exact List.filter_congr fun r _ => hkeep r
  · intro r
    rw [hkeep r]
    simp

/-- Claim C9 (code bug): when the dataset source path does not exist the
loader throws a plain `Error` (whose `code` is undefined, not `ENOENT`),
so the `/analyzeWithDataset` handler classifies the condition with the
generic `analysis_error` type rather than the dedicated `missing_dataset`
type its `err.code === 'ENOENT'` branch was written for. -/
theorem C9_missing_dataset_classified_generic :
    analysisErrorType (datasetNotFoundError "All_Descriptions_Completed.xlsx")
        = "analysis_error"
    ∧ "analysis_error" ≠ "missing_dataset" := by
  constructor
  · decide
  · decide

/-- Quote doubling leaves a quote-free character list unchanged. -/
theorem escapeQData_of_noQuote (l : List Char) (h : ∀ c ∈ l, ¬c = '"') :
    escapeQData l = l := by
  induction l with
  | nil => rfl
  | cons c t ih =>
    have hc : ¬c = '"' := h c (by simp)
    simp [escapeQData, hc, ih fun d hd => h d (by simp [hd])]

/-- One parser step: a doubled quote contributes a literal quote. -/
theorem parseQuotedTail_two_quotes (acc X : List Char) :
    parseQuotedTail acc ('"' :: '"' :: X) = parseQuotedTail ('"' :: acc) X := rfl

/-- One parser step: an ordinary character is accumulated. -/
theorem parseQuotedTail_other (acc : List Char) (c : Char) (X : List Char) (hc : ¬c = '"') :
    parseQuotedTail acc (c :: X) = parseQuotedTail (c :: acc) X := by
  cases X with
  | nil => simp [parseQuotedTail, hc]
  | cons c2 t2 => simp [parseQuotedTail, hc]

/-- One parser step: an undoubled quote closes the field. -/
theorem parseQuotedTail_close (acc X : List Char) (hX : X.head? ≠ some '"') :
    parseQuotedTail acc ('"' :: X) = some (⟨acc.reverse⟩, X) := by
  cases X with
  | nil => simp [parseQuotedTail]
  | cons c2 t2 =>
    have hc2 : ¬c2 = '"' := by
      intro h
      exact hX (by simp [h])
    simp [parseQuotedTail, hc2]

/-- Reading a quoted field back undoes quote doubling: after the doubled
content comes the closing quote and then `rest`, which (in a well-formed
CSV) does not begin with another quote. -/
theorem parseQuotedTail_escape (l : List Char) :
    ∀ acc rest, rest.head? ≠ some '"' →
      parseQuotedTail acc (escapeQData l ++ '"' :: rest) = some (⟨acc.reverse ++ l⟩, rest) := by
  induction l with
  | nil =>
    intro acc rest hrest
    rw [show escapeQData [] ++ '"' :: rest = '"' :: rest from rfl,
      parseQuotedTail_close acc rest hrest]
    simp
  | cons c t ih =>
    intro acc rest hrest
    by_cases hc : c = '"'
    · subst hc
      rw [show escapeQData ('"' :: t) = '"' :: '"' :: escapeQData t from rfl,
        List.cons_append, List.cons_append, parseQuotedTail_two_quotes,
        ih ('"' :: acc) rest hrest]
      simp
    · rw [show escapeQData (c :: t) = c :: escapeQData t from by simp [escapeQData, hc],
        List.cons_append, parseQuotedTail_other acc c _ hc, ih (c :: acc) rest hrest]
      simp

/-- Parsing the serialized, quote-escaped `marker` field. -/
theorem parseField_quoteEsc (s : String) (rest : List Char)
    (hrest : rest.head? ≠ some '"') :
    parseField (quoteEsc s ++ rest) = some (s, rest) := by
  obtain ⟨l⟩ := s
  have hsh : quoteEsc ⟨l⟩ ++ rest = '"' :: (escapeQData l ++ '"' :: rest) := by
    simp [quoteEsc]
  rw [hsh,
    show parseField ('"' :: (escapeQData l ++ '"' :: rest))
        = parseQuotedTail [] (escapeQData l ++ '"' :: rest) from by simp [parseField],
    parseQuotedTail_escape l [] rest hrest]
  simp

/-- Parsing a serialized unescaped field that contains no quote. -/
theorem parseField_quoteRaw (s : String) (rest : List Char)
    (hq : noQuoteStr s = true) (hrest : rest.head? ≠ some '"') :
    parseField (quoteRaw s ++ rest) = some (s, rest) := by
  have hnq : ∀ c ∈ s.data, ¬c = '"' := by
    intro c hc
    have := List.all_eq_true.mp hq c hc
    simpa using this
  have heq : quoteRaw s = quoteEsc s := by
    simp [quoteRaw, quoteEsc, escapeQData_of_noQuote s.data hnq]
  rw [heq]
  exact parseField_quoteEsc s rest hrest

/-- `takeWhile`/`dropWhile` split an append exactly at the first
character that fails the predicate. -/
theorem takeWhile_dropWhile_append (p : Char → Bool) (l rest : List Char)
    (hl : ∀ c ∈ l, p c = true)
    (hrest : rest.head?.all (fun c => !p c) = true) :
    (l ++ rest).takeWhile p = l ∧ (l ++ rest).dropWhile p = rest := by
  induction l with
  | nil =>
    cases rest with
    | nil => simp
    | cons c t =>
      have hc : p c = false := by simpa using hrest
      simp [List.takeWhile_cons, List.dropWhile_cons, hc]
  | cons c t ih =>
    have hc : p c = true := hl c (by simp)
    have := ih fun d hd => hl d (by simp [hd])
    simp [List.takeWhile_cons, List.dropWhile_cons, hc, this.1, this.2]

/-- Parsing an unquoted field (used by the fixed header line): the
field's characters contain no separator and do not start with a quote,
and the remainder starts with a separator (or is empty). -/
theorem parseField_unquoted (l rest : List Char)
    (hne : l.head? ≠ some '"')
    (hl : ∀ c ∈ l, notFieldEnd c = true)
    (hrest : rest.head?.all (fun c => !notFieldEnd c) = true) :
    parseField (l ++ rest) = some (⟨l⟩, rest) := by
  obtain ⟨htw, hdw⟩ := takeWhile_dropWhile_append notFieldEnd l rest hl hrest
  cases l with
  | nil =>
    cases rest with
    | nil => rfl
    | cons c t =>
      have hc : ¬c = '"' := by
        intro h
        subst h
        simp [notFieldEnd] at hrest
      simp only [List.nil_append] at htw hdw ⊢
      simp [parseField, hc, htw, hdw, String.ext_iff]
  | cons c t =>
    have hc : ¬c = '"' := by
      intro h
      exact hne (by simp [h])
    simp only [List.cons_append] at htw hdw ⊢
    simp [parseField, hc, htw, hdw]

/-- Parsing one serialized data line: the five quoted fields come back
with their original values, leaving `rest` (which is empty or starts the
next line) untouched.  `gender`, `min`, `max`, `severity` must be
quote-free since the serializer does not escape them. -/
theorem parseFieldsAux_rowLine (g : Nat) (r : CleanRow) (rest : List Char)
    (hg : noQuoteStr r.gender = true) (hmin : noQuoteStr r.min = true)
    (hmax : noQuoteStr r.max = true) (hsev : noQuoteStr r.severity = true)
    (hrest : rest = [] ∨ rest.head? = some '\n') :
    parseFieldsAux (g + 5) (rowLineData r ++ rest)
      = some ([r.marker, r.gender, r.min, r.max, r.severity], rest) := by
  have hrq : rest.head? ≠ some '"' := by
    rcases hrest with h | h
    · subst h; simp
    · rw [h]; simp
  have h5 : parseFieldsAux (g + 1) (quoteRaw r.severity ++ rest)
      = some ([r.severity], rest) := by
    simp only [parseFieldsAux]
    rw [parseField_quoteRaw r.severity rest hsev hrq]
    rcases hrest with h | h
    · subst h; simp
    · rcases rest with _ | ⟨c, t⟩
      · simp at h
      · have hc : c = '\n' := by simpa using h
        subst hc
        simp
  have h4 : parseFieldsAux (g + 2)
        (quoteRaw r.max ++ ',' :: (quoteRaw r.severity ++ rest))
      = some ([r.max, r.severity], rest) := by
    rw [show g + 2 = g + 1 + 1 from rfl]
    conv_lhs => rw [parseFieldsAux]
    rw [parseField_quoteRaw r.max _ hmax (by simp)]
    simp [h5]
  have h3 : parseFieldsAux (g + 3)
        (quoteRaw r.min ++ ',' :: (quoteRaw r.max ++ ',' :: (quoteRaw r.severity ++ rest)))
      = some ([r.min, r.max, r.severity], rest) := by
    rw [show g + 3 = g + 2 + 1 from rfl]
    conv_lhs => rw [parseFieldsAux]
    rw [parseField_quoteRaw r.min _ hmin (by simp)]
    simp [h4]
  have h2 : parseFieldsAux (g + 4)
        (quoteRaw r.gender ++ ',' :: (quoteRaw r.min ++ ',' :: (quoteRaw r.max ++
          ',' :: (quoteRaw r.severity ++ rest))))
      = some ([r.gender, r.min, r.max, r.severity], rest) := by
    rw [show g + 4 = g + 3 + 1 from rfl]
    conv_lhs => rw [parseFieldsAux]
    rw [parseField_quoteRaw r.gender _ hg (by simp)]
    simp [h3]
  have h1 : rowLineData r ++ rest
      = quoteEsc r.marker ++ ',' :: (quoteRaw r.gender ++ ',' :: (quoteRaw r.min ++
          ',' :: (quoteRaw r.max ++ ',' :: (quoteRaw r.severity ++ rest)))) := by
    simp [rowLineData, List.append_assoc]
  rw [h1, show g + 5 = g + 4 + 1 from rfl]
  conv_lhs => rw [parseFieldsAux]
  rw [parseField_quoteEsc r.marker _ (by simp)]
  simp [h2]

/-- Parsing the fixed header line (five unquoted fields). -/
theorem parseFieldsAux_header (g : Nat) (rest : List Char)
    (hrest : rest = [] ∨ rest.head? = some '\n') :
    parseFieldsAux (g + 5) (("Marker,Gender,Min,Max,Severity").data ++ rest)
      = some (["Marker", "Gender", "Min", "Max", "Severity"], rest) := by
  have hstop : rest.head?.all (fun c => !notFieldEnd c) = true := by
    rcases hrest with h | h
    · subst h; simp
    · rcases rest with _ | ⟨c, t⟩
      · simp
      · have hc : c = '\n' := by simpa using h
        subst hc
        simp [notFieldEnd]
  have h5 : parseFieldsAux (g + 1) ('S' :: 'e' :: 'v' :: 'e' :: 'r' :: 'i' :: 't' :: 'y' ::rest)
      = some (["Severity"], rest) := by
    conv_lhs => rw [parseFieldsAux]
    rw [show ('S' :: 'e' :: 'v' :: 'e' :: 'r' :: 'i' :: 't' :: 'y' ::rest) = ("Severity").data ++ rest from rfl,
      parseField_unquoted ("Severity").data rest (by decide) (by decide) hstop]
    rcases hrest with h | h
    · subst h; simp
    · rcases rest with _ | ⟨c, t⟩
      · simp at h
      · have hc : c = '\n' := by simpa using h
        subst hc
        simp
  have h4 : parseFieldsAux (g + 2) ('M' :: 'a' :: 'x' :: ',' :: 'S' :: 'e' :: 'v' :: 'e' :: 'r' :: 'i' :: 't' :: 'y' ::rest)
      = some (["Max", "Severity"], rest) := by
    rw [show g + 2 = g + 1 + 1 from rfl]
    conv_lhs => rw [parseFieldsAux]
    rw [show ('M' :: 'a' :: 'x' :: ',' :: 'S' :: 'e' :: 'v' :: 'e' :: 'r' :: 'i' :: 't' :: 'y' ::rest) = ("Max").data ++ ',' :: (("Severity").data ++ rest) from rfl,
      parseField_unquoted ("Max").data _ (by decide) (by decide) (by simp [notFieldEnd])]
    simp [h5]
  have h3 : parseFieldsAux (g + 3) ('M' :: 'i' :: 'n' :: ',' :: 'M' :: 'a' :: 'x' :: ',' :: 'S' :: 'e' :: 'v' :: 'e' :: 'r' :: 'i' :: 't' :: 'y' ::rest)
      = some (["Min", "Max", "Severity"], rest) := by
    rw [show g + 3 = g + 2 + 1 from rfl]
    conv_lhs => rw [parseFieldsAux]
    rw [show ('M' :: 'i' :: 'n' :: ',' :: 'M' :: 'a' :: 'x' :: ',' :: 'S' :: 'e' :: 'v' :: 'e' :: 'r' :: 'i' :: 't' :: 'y' ::rest) = ("Min").data ++ ',' :: (("Max").data ++ ',' :: (("Severity").data ++ rest)) from rfl,
      parseField_unquoted ("Min").data _ (by decide) (by decide) (by simp [notFieldEnd])]
    simp [h4]
  have h2 : parseFieldsAux (g + 4) ('G' :: 'e' :: 'n' :: 'd' :: 'e' :: 'r' :: ',' :: 'M' :: 'i' :: 'n' :: ',' :: 'M' :: 'a' :: 'x' :: ',' :: 'S' :: 'e' :: 'v' :: 'e' :: 'r' :: 'i' :: 't' :: 'y' ::rest)
      = some (["Gender", "Min", "Max", "Severity"], rest) := by
    rw [show g + 4 = g + 3 + 1 from rfl]
    conv_lhs => rw [parseFieldsAux]
    rw [show ('G' :: 'e' :: 'n' :: 'd' :: 'e' :: 'r' :: ',' :: 'M' :: 'i' :: 'n' :: ',' :: 'M' :: 'a' :: 'x' :: ',' :: 'S' :: 'e' :: 'v' :: 'e' :: 'r' :: 'i' :: 't' :: 'y' ::rest) = ("Gender").data ++ ',' :: (("Min").data ++ ',' :: (("Max").data ++ ',' :: (("Severity").data ++ rest))) from rfl,
      parseField_unquoted ("Gender").data _ (by decide) (by decide) (by simp [notFieldEnd])]
    simp [h3]
  rw [show g + 5 = g + 4 + 1 from rfl]
  conv_lhs => rw [parseFieldsAux]
  rw [show ("Marker,Gender,Min,Max,Severity").data ++ rest
      = ("Marker").data ++ ',' :: (("Gender").data ++ ',' :: (("Min").data ++ ',' :: (("Max").data ++ ',' :: (("Severity").data ++ rest)))) from rfl,
    parseField_unquoted ("Marker").data _ (by decide) (by decide) (by simp [notFieldEnd])]
  simp [h2]

/-- A serialized data line has at least its ten quotes and four commas. -/
theorem rowLineData_length (r : CleanRow) : 4 ≤ (rowLineData r).length := by
  simp [rowLineData, quoteEsc, quoteRaw, List.length_append]
  omega

/-- The character stream of a two-or-more-line join starts with the first
line and a newline. -/
theorem joinLines_cons_data (a b : String) (ls : List String) :
    (joinLines (a :: b :: ls)).data = a.data ++ '\n' :: (joinLines (b :: ls)).data := by
  rw [show joinLines (a :: b :: ls) = a ++ "\n" ++ joinLines (b :: ls) from rfl]
  simp [String.data_append, show ("\n").data = ['\n'] from rfl]

/-- A join of data lines has at least one character per line. -/
theorem joinLines_length (rows : List CleanRow) (h : rows ≠ []) :
    rows.length ≤ (joinLines (rows.map fun r => (⟨rowLineData r⟩ : String))).data.length := by
  induction rows with
  | nil => simp at h
  | cons r rs ih =>
    cases rs with
    | nil =>
      have := rowLineData_length r
      simpa [joinLines] using by omega
    | cons r2 rs2 =>
      have h2 := ih (by simp)
      rw [List.map_cons, List.map_cons, joinLines_cons_data]
      rw [List.map_cons] at h2
      simp only [List.length_append, List.length_cons, List.length_map] at h2 ⊢
      omega

/-- Parsing the joined serialized data lines returns every row's fields
in order, given enough fuel (one unit per line). -/
theorem parseRowsAux_lines :
    ∀ rows : List CleanRow, rows ≠ [] →
      (∀ r ∈ rows, noQuoteStr r.gender = true ∧ noQuoteStr r.min = true ∧
        noQuoteStr r.max = true ∧ noQuoteStr r.severity = true) →
      ∀ fuel : Nat, rows.length ≤ fuel →
        parseRowsAux fuel ((joinLines (rows.map fun r => (⟨rowLineData r⟩ : String))).data)
          = some (rows.map fun r => [r.marker, r.gender, r.min, r.max, r.severity]) := by
  intro rows
  induction rows with
  | nil => intro h; simp at h
  | cons r rs ih =>
    intro _ hq fuel hfuel
    obtain ⟨f, rfl⟩ : ∃ f, fuel = f + 1 := ⟨fuel - 1, by simp at hfuel; omega⟩
    have hqr := hq r (by simp)
    have hqrs : ∀ x ∈ rs, noQuoteStr x.gender = true ∧ noQuoteStr x.min = true ∧
        noQuoteStr x.max = true ∧ noQuoteStr x.severity = true :=
      fun x hx => hq x (by simp [hx])
    cases rs with
    | nil =>
      rw [show (joinLines ([r].map fun r => (⟨rowLineData r⟩ : String))).data
          = rowLineData r from rfl]
      conv_lhs => rw [parseRowsAux]
      obtain ⟨g, hg⟩ : ∃ g, (rowLineData r).length + 1 = g + 5 :=
        ⟨(rowLineData r).length - 4, by have := rowLineData_length r; omega⟩
      rw [hg]
      have hrec := parseFieldsAux_rowLine g r [] hqr.1 hqr.2.1 hqr.2.2.1 hqr.2.2.2
        (Or.inl rfl)
      rw [List.append_nil] at hrec
      rw [hrec]
      simp
    | cons r2 rs2 =>
      rw [List.map_cons, List.map_cons, joinLines_cons_data]
      conv_lhs => rw [parseRowsAux]
      obtain ⟨g, hg⟩ : ∃ g,
          (rowLineData r ++ '\n' ::
            (joinLines ((⟨rowLineData r2⟩ : String) :: rs2.map fun x =>
              (⟨rowLineData x⟩ : String))).data).length + 1 = g + 5 := by
        refine ⟨(rowLineData r ++ '\n' ::
            (joinLines ((⟨rowLineData r2⟩ : String) :: rs2.map fun x =>
              (⟨rowLineData x⟩ : String))).data).length - 4, ?_⟩
        have := rowLineData_length r
        simp only [List.length_append, List.length_cons]
        omega
      rw [hg]
      have hrec := parseFieldsAux_rowLine g r
        ('\n' :: (joinLines ((⟨rowLineData r2⟩ : String) :: rs2.map fun x =>
          (⟨rowLineData x⟩ : String))).data)
        hqr.1 hqr.2.1 hqr.2.2.1 hqr.2.2.2 (Or.inr rfl)
      rw [hrec]
      have hih := ih (by simp) hqrs f (by simp at hfuel ⊢; omega)
      rw [List.map_cons] at hih
      simp [hih]

/-- Claim C8 counterexample: the serializer escapes quotes only in the
marker field, so a loaded row whose `Minimum` cell contains a quote
serializes to a malformed line and the round trip fails — the emitted
text does not parse back to any tabular structure at all, let alone one
with the original field values. -/
theorem C8_roundtrip_counterexample :
    csvParse (generatePrecisionCSV (loadDatasetWithPrecision [quotedMinRow])) = none
    ∧ (loadDatasetWithPrecision [quotedMinRow]).map (fun r => r.min) = ["a\"b"] := by
  constructor
  · decide
  · decide

/-- One record step of the CSV reader: a first record ending at a newline
followed by a successfully parsed remainder. -/
theorem parseRowsAux_cons (fuel : Nat) (cs B : List Char) (rec : List String)
    (rs : List (List String))
    (h1 : parseFieldsAux (cs.length + 1) cs = some (rec, '\n' :: B))
    (h2 : parseRowsAux fuel B = some rs) :
    parseRowsAux (fuel + 1) cs = some (rec :: rs) := by
  conv_lhs => rw [parseRowsAux]
  rw [h1]
  simp [h2]

/-- Claim C8 (amended): serialization emits the fixed header line then
one quoted line per row in input order, escaping quotes by doubling in
the marker field only; `serialize(load(path))` re-parses to the header
plus the loaded rows' exact field values whenever `gender`, `min`, `max`
and `severity` contain no quote character (the marker may contain
anything, its quotes being escaped). -/
theorem C8_roundtrip_amended :
    ∀ rows : List CleanRow,
      (∀ r ∈ rows, noQuoteStr r.gender = true ∧ noQuoteStr r.min = true ∧
        noQuoteStr r.max = true ∧ noQuoteStr r.severity = true) →
      csvParse (generatePrecisionCSV rows)
        = some (["Marker", "Gender", "Min", "Max", "Severity"]
            :: rows.map fun r => [r.marker, r.gender, r.min, r.max, r.severity]) := by
  intro rows hq
  cases rows with
  | nil => decide
  | cons r rs =>
    rw [show csvParse (generatePrecisionCSV (r :: rs))
        = parseRowsAux ((generatePrecisionCSV (r :: rs)).data.length + 1)
            ((generatePrecisionCSV (r :: rs)).data) from rfl]
    have hdata : (generatePrecisionCSV (r :: rs)).data
        = ("Marker,Gender,Min,Max,Severity").data ++ '\n' ::
            (joinLines ((⟨rowLineData r⟩ : String) :: rs.map fun x =>
              (⟨rowLineData x⟩ : String))).data := by
      rw [show generatePrecisionCSV (r :: rs)
          = joinLines (("Marker,Gender,Min,Max,Severity" : String) ::
              (⟨rowLineData r⟩ : String) :: rs.map fun x => (⟨rowLineData x⟩ : String))
          from rfl]
      exact joinLines_cons_data _ _ _
    rw [hdata]
    obtain ⟨g, hg⟩ : ∃ g,
        (("Marker,Gender,Min,Max,Severity").data ++ '\n' ::
          (joinLines ((⟨rowLineData r⟩ : String) :: rs.map fun x =>
            (⟨rowLineData x⟩ : String))).data).length + 1 = g + 5 := by
      refine ⟨(("Marker,Gender,Min,Max,Severity").data ++ '\n' ::
          (joinLines ((⟨rowLineData r⟩ : String) :: rs.map fun x =>
            (⟨rowLineData x⟩ : String))).data).length - 4, ?_⟩
      have h31 : ("Marker,Gender,Min,Max,Severity").data.length = 30 := by decide
      simp only [List.length_append, List.length_cons]
      omega
    have h1 : parseFieldsAux
        ((("Marker,Gender,Min,Max,Severity").data ++ '\n' ::
          (joinLines ((⟨rowLineData r⟩ : String) :: rs.map fun x =>
            (⟨rowLineData x⟩ : String))).data).length + 1)
        (("Marker,Gender,Min,Max,Severity").data ++ '\n' ::
          (joinLines ((⟨rowLineData r⟩ : String) :: rs.map fun x =>
            (⟨rowLineData x⟩ : String))).data)
        = some (["Marker", "Gender", "Min", "Max", "Severity"],
            '\n' :: (joinLines ((⟨rowLineData r⟩ : String) :: rs.map fun x =>
              (⟨rowLineData x⟩ : String))).data) := by
      rw [hg]
      exact parseFieldsAux_header g _ (Or.inr rfl)
    have h2 := parseRowsAux_lines (r :: rs) (by simp) hq
      (("Marker,Gender,Min,Max,Severity").data ++ '\n' ::
        (joinLines ((⟨rowLineData r⟩ : String) :: rs.map fun x =>
          (⟨rowLineData x⟩ : String))).data).length
      (by
        have hjl := joinLines_length (r :: rs) (by simp)
        rw [List.map_cons] at hjl
        simp only [List.length_append, List.length_cons] at hjl ⊢
        omega)
    rw [List.map_cons] at h2
    rw [parseRowsAux_cons _ _ _ _ _ h1 h2, List.map_cons]

/-- Witness for C8: the amended round trip applied to a one-row dataset
whose marker itself contains a quote (escaped and restored correctly). -/
theorem C8_roundtrip_amended_witness :
    csvParse (generatePrecisionCSV quotedMarkerDataset)
      = some [["Marker", "Gender", "Min", "Max", "Severity"],
          ["Glu\"cose", "both", "70", "99", "2"]] :=
  C8_roundtrip_amended quotedMarkerDataset (by decide)
